import Mathlib

/-!
Verification of the biocomp repository (workflow.py, appsexception.py).

The development shallowly embeds the two source modules:

* `appsexception.py`: the `PhylipMissingData` exception class becomes a
  structure with an `input_dir` and a `message` field, together with its
  constructor (including the default message) and its textual form.

* `workflow.py`:
  - `workflow_config` becomes a pure function.  The filesystem is passed in
    as a function `fsys : String → String` (file path to contents), the
    external `address_by_interface` helper as a function
    `addr : String → String`.  Python list indexing, which raises
    `IndexError` out of range, is modelled by `List.get?` in the `Option`
    monad, so the function returns `Option Config`.
  - `wait_for_all` becomes a fuel-indexed polling loop over a list of
    futures.  A future carries its completion history `doneAt : Nat → Bool`
    (the value `done()` returns at discrete poll time `t`; one poll cycle
    advances the clock by one) and its stored outcome
    `result : Except ε α` (`result()` re-raises a stored exception).
    Each cycle scans the list in order and, exactly like the Python
    `for`/`break`, stops at the first incomplete future; it then sleeps the
    full `sleep_interval`.  The loop body runs (and sleeps) at least once,
    also on an empty list, because the `while` condition is seeded with
    `not_done = True`.  The trace records the exit time, every sleep
    duration, and how many `done()` calls each cycle made.  Running out of
    fuel returns `none`, modelling a loop that has not terminated yet.
-/

namespace Biocomp

/-! ## appsexception.py -/

/-- Exception raised by the `setup_phylip_data` application: carries the
directory that was searched and an explanatory message. -/
structure PhylipMissingData where
  input_dir : String
  message : String

/-- The default value of the `message` parameter of
`PhylipMissingData.__init__`. -/
def PhylipMissingData.defaultMessage : String :=
  "Unable to find a tar file with the nexus data."

/-- `PhylipMissingData(input_dir, message)`: the two-argument constructor. -/
def PhylipMissingData.init (input_dir message : String) : PhylipMissingData :=
  ⟨input_dir, message⟩

/-- `PhylipMissingData(input_dir)`: the one-argument constructor, which
uses the default message. -/
def PhylipMissingData.initDefault (input_dir : String) : PhylipMissingData :=
  PhylipMissingData.init input_dir PhylipMissingData.defaultMessage

/-- `PhylipMissingData.__str__`: `f'{self.input_dir} -> {self.message}'`. -/
def PhylipMissingData.toStr (e : PhylipMissingData) : String :=
  e.input_dir ++ " -> " ++ e.message

/-! ## workflow.py: wait_for_all -/

/-- A parsl task handle (future), as consumed by `wait_for_all`:
`doneAt t` is what `done()` reports at poll time `t`, and `result` is the
stored outcome that `result()` returns or re-raises. -/
structure Future (ε α : Type) where
  doneAt : Nat → Bool
  result : Except ε α

variable {ε α : Type}

/-- One pass of the inner `for r in list_of_futures` loop at poll time `t`:
`not_done` is reset to `False`, each future is asked `done()` in order, and
the scan `break`s at the first incomplete one.  Returns the resulting
`not_done` flag together with the number of `done()` calls made. -/
def checkCycle : List (Future ε α) → Nat → Bool × Nat
  | [], _ => (false, 0)
  | f :: rest, t =>
      if f.doneAt t then
        let r := checkCycle rest t
        (r.1, r.2 + 1)
      else
        (true, 1)

/-- Observable trace of the `while not_done` loop: the poll time at which
the final cycle ran, the duration of every `time.sleep` call in order, and
the number of `done()` calls each cycle made. -/
structure LoopTrace where
  exitTime : Nat
  sleepLog : List Nat
  checksLog : List Nat
deriving Repr, DecidableEq

/-- The `while not_done` loop of `wait_for_all`, polling from time `t` with
the given fuel.  Each cycle scans the futures (`checkCycle`), then sleeps
`si` seconds — also in the cycle that observes everything done, since the
Python loop sleeps before re-testing the `while` condition.  `none` means
the fuel ran out before the loop exited. -/
def pollLoop (fs : List (Future ε α)) (si : Nat) : Nat → Nat → Option LoopTrace
  | _, 0 => none
  | t, fuel + 1 =>
      let c := checkCycle fs t
      if c.1 then
        match pollLoop fs si (t + 1) fuel with
        | none => none
        | some tr => some ⟨tr.exitTime, si :: tr.sleepLog, c.2 :: tr.checksLog⟩
      else
        some ⟨t, [si], [c.2]⟩

/-- The final `for r in list_of_futures: r.result()` pass: calls `result()`
on every future in order; the first stored exception propagates. -/
def collectResults : List (Future ε α) → Except ε Unit
  | [] => Except.ok ()
  | f :: rest =>
      match f.result with
      | Except.error e => Except.error e
      | Except.ok _ => collectResults rest

/-- `wait_for_all(list_of_futures, sleep_interval)`: run the polling loop
from time 0; if it exits within the fuel, run the result-collection pass.
Returns the loop trace paired with the outcome of the collection pass. -/
def wait_for_all (fs : List (Future ε α)) (si fuel : Nat) :
    Option (LoopTrace × Except ε Unit) :=
  match pollLoop fs si 0 fuel with
  | none => none
  | some tr => some (tr, collectResults fs)

/-! ## workflow.py: workflow_config

The parsl objects built by `workflow_config` are modelled field by field:
only the keyword arguments the source actually passes appear.  Fields whose
values come straight from the parsl library (`address_by_interface('ib0')`)
are taken from the external `addr` function. -/

/-- `SrunLauncher(overrides=...)`. -/
structure SrunLauncher where
  overrides : String
deriving Repr, DecidableEq

/-- `SlurmProvider(...)` with the keyword arguments `workflow_config`
passes.  Executors 0–2 leave `scheduler_options` at the library default
`''`; executor 3 passes `''` explicitly — both are the empty string. -/
structure SlurmProvider where
  partition : String
  scheduler_options : String
  parallelism : Nat
  init_blocks : Nat
  max_blocks : Nat
  nodes_per_block : Nat
  cmd_timeout : Nat
  worker_init : String
  move_files : Bool
  walltime : String
  launcher : SrunLauncher
deriving Repr, DecidableEq

/-- `HighThroughputExecutor(...)` with the keyword arguments
`workflow_config` passes. -/
structure HighThroughputExecutor where
  label : String
  address : String
  max_workers : Nat
  cores_per_worker : Nat
  worker_debug : Bool
  interchange_port_range : Nat × Nat
  provider : SlurmProvider
deriving Repr, DecidableEq

/-- `parsl.monitoring.monitoring.MonitoringHub(...)` with the keyword
arguments `workflow_config` passes. -/
structure MonitoringHub where
  workflow_name : String
  hub_address : String
  hub_port : Nat
  resource_monitoring_enabled : Bool
  monitoring_debug : Bool
  resource_monitoring_interval : Nat
deriving Repr, DecidableEq

/-- `parsl.config.Config(executors=..., monitoring=..., strategy=None)`. -/
structure Config where
  executors : List HighThroughputExecutor
  monitoring : Option MonitoringHub
  strategy : Option String
deriving Repr, DecidableEq

/-- The first four elements of a list.  `none` exactly when the list has
fewer than four elements — the situation in which Python's `partition[i]`
indexing inside `workflow_config` raises `IndexError`. -/
def take4 {β : Type} : List β → Option (β × β × β × β)
  | a :: b :: c :: d :: _ => some (a, b, c, d)
  | _ => none

/-- `workflow_config(name, partition, nodes, cores_per_node, walltime,
interval, monitor)`.  `fsys` maps a file path to its contents (the
`open('parsl.env').read()` call), `addr` is parsl's
`address_by_interface`.  Out-of-range list indexing — Python's
`IndexError` — makes the result `none`.  The logging side effects
(`set_stream_logger`, `set_file_logger`, `logging.info`) have no bearing
on the returned configuration and are not modelled. -/
def workflow_config (name : String) (addr : String → String)
    (fsys : String → String) (partition : List String) (nodes : List Nat)
    (cores_per_node : List Nat) (walltime : List String) (interval : Nat)
    (monitor : Bool) : Option Config := do
  let env_str := fsys "parsl.env"
  let mon_hub : Option MonitoringHub :=
    if monitor then
      some (MonitoringHub.mk name (addr "ib0") 60001 true false interval)
    else none
  let (p0, p1, p2, p3) ← take4 partition
  let (n0, n1, n2, n3) ← take4 nodes
  let (c0, c1, c2, c3) ← take4 cores_per_node
  let (w0, w1, w2, w3) ← take4 walltime
  pure (Config.mk
    [HighThroughputExecutor.mk "single_thread" (addr "ib0") c0 1 false
       (50000, 55000)
       (SlurmProvider.mk p0 "" 1 1 1 n0 120 env_str false w0
         (SrunLauncher.mk ("-c " ++ toString c0))),
     HighThroughputExecutor.mk "raxml" (addr "ib0") c1 6 false
       (55000, 60000)
       (SlurmProvider.mk p1 "" 1 1 1 n1 120 env_str false w1
         (SrunLauncher.mk ("-c " ++ toString c1))),
     HighThroughputExecutor.mk "snaq" (addr "ib0") c2 6 false
       (40000, 45000)
       (SlurmProvider.mk p2 "" 1 1 1 n2 120 env_str false w2
         (SrunLauncher.mk ("-c " ++ toString c2))),
     HighThroughputExecutor.mk "snaq_l" (addr "ib0") c3 6 false
       (45000, 50000)
       (SlurmProvider.mk p3 "" 1 1 1 n3 120 env_str false w3
         (SrunLauncher.mk ("-c " ++ toString c3)))]
    mon_hub none)

/-! ## Concrete sample values, used to exercise the model -/

/-- A future that is already complete and succeeds. -/
def futNow : Future String Nat :=
  Future.mk (fun _ => true) (Except.ok 0)

/-- A future that becomes complete at poll time 1 and succeeds. -/
def futLate : Future String Nat :=
  Future.mk (fun t => Nat.ble 1 t) (Except.ok 1)

/-- A future that never completes. -/
def futNever : Future String Nat :=
  Future.mk (fun _ => false) (Except.ok 2)

/-- A future that is already complete and whose `result()` raises. -/
def futFail : Future String Nat :=
  Future.mk (fun _ => true) (Except.error "boom")

/-- A sample `address_by_interface`. -/
def sampleAddr : String → String := fun s => "addr:" ++ s

/-- A sample filesystem: maps every path `p` to the contents `env:p`. -/
def sampleFsys : String → String := fun p => "env:" ++ p

/-- Sample partition list. -/
def samplePartition : List String := ["pa", "pb", "pc", "pd"]

/-- Sample node counts. -/
def sampleNodes : List Nat := [1, 4, 1, 1]

/-- Sample cores per node. -/
def sampleCores : List Nat := [48, 48, 48, 48]

/-- Sample walltimes. -/
def sampleWall : List String := ["w0", "w1", "w2", "w3"]

/-- The configuration built from the sample inputs with monitoring off. -/
def sampleCfg : Config :=
  (workflow_config "wf" sampleAddr sampleFsys samplePartition sampleNodes
    sampleCores sampleWall 30 false).getD (Config.mk [] none none)

/-- The configuration built from the sample inputs with monitoring on. -/
def sampleCfgMon : Config :=
  (workflow_config "wf" sampleAddr sampleFsys samplePartition sampleNodes
    sampleCores sampleWall 30 true).getD (Config.mk [] none none)

/-! ## Lemmas about the polling cycle -/

/-- The cycle's `not_done` flag is `false` exactly when every future
reports complete at time `t`. -/
theorem checkCycle_fst_eq_false_iff (fs : List (Future ε α)) (t : Nat) :
    (checkCycle fs t).1 = false ↔ ∀ f ∈ fs, f.doneAt t = true := by
  induction fs with
  | nil => simp [checkCycle]
  | cons f rest ih =>
      by_cases h : f.doneAt t
      · simp [checkCycle, h, ih]
      · simp [checkCycle, h]

/-- The number of `done()` calls a cycle makes: one per leading complete
future, plus one for the first incomplete future when there is one. -/
theorem checkCycle_snd_eq (fs : List (Future ε α)) (t : Nat) :
    (checkCycle fs t).2 =
      (fs.takeWhile fun f => f.doneAt t).length +
        (if fs.all (fun f => f.doneAt t) then 0 else 1) := by
  induction fs with
  | nil => simp [checkCycle]
  | cons f rest ih =>
      by_cases h : f.doneAt t
      · by_cases h2 : rest.all (fun f => f.doneAt t)
        · simp [checkCycle, h, h2, ih, List.takeWhile_cons]
        · simp [checkCycle, h, h2, ih, List.takeWhile_cons]
      · simp [checkCycle, h, List.takeWhile_cons]

/-- The cycle consults only the futures' completion flags, never their
results. -/
theorem checkCycle_congr (fs gs : List (Future ε α))
    (h : fs.map Future.doneAt = gs.map Future.doneAt) (t : Nat) :
    checkCycle fs t = checkCycle gs t := by
  induction fs generalizing gs with
  | nil => cases gs with
      | nil => rfl
      | cons g gs2 => simp at h
  | cons f rest ih =>
      cases gs with
      | nil => simp at h
      | cons g gs2 =>
          simp only [List.map_cons, List.cons.injEq] at h
          simp only [checkCycle, h.1, ih gs2 h.2]

/-! ## Lemmas about the polling loop -/

/-- When the loop exits, the cycle it exited from saw `not_done = False`:
the scan found every future complete at the exit time. -/
theorem pollLoop_exit_flag (fs : List (Future ε α)) (si : Nat) :
    ∀ fuel t tr, pollLoop fs si t fuel = some tr →
      (checkCycle fs tr.exitTime).1 = false := by
  intro fuel
  induction fuel with
  | zero => intro t tr h; simp [pollLoop] at h
  | succ n ih =>
      intro t tr h
      rw [pollLoop] at h
      split at h
      · cases hp : pollLoop fs si (t + 1) n with
        | none => rw [hp] at h; exact absurd h (by simp)
        | some tr2 =>
            rw [hp] at h
            simp only [Option.some.injEq] at h
            rw [← h]
            exact ih (t + 1) tr2 hp
      · rename_i hc
        simp only [Bool.not_eq_true] at hc
        simp only [Option.some.injEq] at h
        rw [← h]
        simpa using hc

/-- Every future is complete at the loop's exit time. -/
theorem pollLoop_exit_all_done (fs : List (Future ε α)) (si fuel t : Nat)
    (tr : LoopTrace) (h : pollLoop fs si t fuel = some tr) :
    ∀ f ∈ fs, f.doneAt tr.exitTime = true :=
  (checkCycle_fst_eq_false_iff fs tr.exitTime).1
    (pollLoop_exit_flag fs si fuel t tr h)

/-- Every recorded sleep lasts the full interval, and there is exactly one
sleep per cycle. -/
theorem pollLoop_sleepLog_eq (fs : List (Future ε α)) (si : Nat) :
    ∀ fuel t tr, pollLoop fs si t fuel = some tr →
      tr.sleepLog = List.replicate tr.checksLog.length si := by
  intro fuel
  induction fuel with
  | zero => intro t tr h; simp [pollLoop] at h
  | succ n ih =>
      intro t tr h
      rw [pollLoop] at h
      split at h
      · cases hp : pollLoop fs si (t + 1) n with
        | none => rw [hp] at h; exact absurd h (by simp)
        | some tr2 =>
            rw [hp] at h
            simp only [Option.some.injEq] at h
            rw [← h]
            simp [ih (t + 1) tr2 hp, List.replicate_succ]
      · simp only [Option.some.injEq] at h
        rw [← h]
        simp [List.replicate_succ]

/-- Cycle `j` of a run started at time `t` performs exactly the number of
`done()` calls that `checkCycle` makes at time `t + j`. -/
theorem pollLoop_checksLog_get (fs : List (Future ε α)) (si : Nat) :
    ∀ fuel t tr, pollLoop fs si t fuel = some tr →
      ∀ j, j < tr.checksLog.length →
        tr.checksLog.get? j = some ((checkCycle fs (t + j)).2) := by
  intro fuel
  induction fuel with
  | zero => intro t tr h; simp [pollLoop] at h
  | succ n ih =>
      intro t tr h
      rw [pollLoop] at h
      split at h
      · cases hp : pollLoop fs si (t + 1) n with
        | none => rw [hp] at h; exact absurd h (by simp)
        | some tr2 =>
            rw [hp] at h
            simp only [Option.some.injEq] at h
            rw [← h]
            intro j hj
            cases j with
            | zero => simp
            | succ k =>
                have hk : k < tr2.checksLog.length := by
                  simp at hj
                  omega
                have harith : t + (k + 1) = t + 1 + k := by omega
                rw [harith]
                simpa using ih (t + 1) tr2 hp k hk
      · simp only [Option.some.injEq] at h
        rw [← h]
        intro j hj
        cases j with
        | zero => simp
        | succ k => simp at hj

/-- The loop sleeps at least once: the sleep log begins with a full
interval. -/
theorem pollLoop_sleepLog_cons (fs : List (Future ε α)) (si : Nat) :
    ∀ fuel t tr, pollLoop fs si t fuel = some tr →
      ∃ rest, tr.sleepLog = si :: rest := by
  intro fuel
  induction fuel with
  | zero => intro t tr h; simp [pollLoop] at h
  | succ n ih =>
      intro t tr h
      rw [pollLoop] at h
      split at h
      · cases hp : pollLoop fs si (t + 1) n with
        | none => rw [hp] at h; exact absurd h (by simp)
        | some tr2 =>
            rw [hp] at h
            simp only [Option.some.injEq] at h
            rw [← h]
            exact ⟨tr2.sleepLog, rfl⟩
      · simp only [Option.some.injEq] at h
        rw [← h]
        exact ⟨[], rfl⟩

/-- The polling loop consults only the futures' completion flags: two
future lists with the same completion histories poll identically. -/
theorem pollLoop_congr (fs gs : List (Future ε α))
    (hmap : fs.map Future.doneAt = gs.map Future.doneAt) (si : Nat) :
    ∀ fuel t, pollLoop fs si t fuel = pollLoop gs si t fuel := by
  intro fuel
  induction fuel with
  | zero => intro t; simp [pollLoop]
  | succ n ih =>
      intro t
      rw [pollLoop, pollLoop, checkCycle_congr fs gs hmap t, ih (t + 1)]

/-- If some cycle flag is always raised, the loop never exits. -/
theorem pollLoop_none_of_always_not_done (fs : List (Future ε α)) (si : Nat)
    (hflag : ∀ t, (checkCycle fs t).1 = true) :
    ∀ fuel t, pollLoop fs si t fuel = none := by
  intro fuel
  induction fuel with
  | zero => intro t; simp [pollLoop]
  | succ n ih =>
      intro t
      rw [pollLoop]
      simp [hflag t, ih (t + 1)]

/-- If every future is complete at time `t + n`, the loop started at `t`
exits within `n + 1` cycles. -/
theorem pollLoop_terminates (fs : List (Future ε α)) (si : Nat) :
    ∀ n t, (∀ f ∈ fs, f.doneAt (t + n) = true) →
      ∃ tr, pollLoop fs si t (n + 1) = some tr := by
  intro n
  induction n with
  | zero =>
      intro t hdone
      have hflag : (checkCycle fs t).1 = false :=
        (checkCycle_fst_eq_false_iff fs t).2 (by simpa using hdone)
      exact ⟨⟨t, [si], [(checkCycle fs t).2]⟩, by rw [pollLoop]; simp [hflag]⟩
  | succ k ih =>
      intro t hdone
      by_cases hflag : (checkCycle fs t).1 = true
      · obtain ⟨tr2, htr2⟩ := ih (t + 1) (by
          intro f hf
          have := hdone f hf
          have harith : t + 1 + k = t + (k + 1) := by omega
          rw [harith]
          exact this)
        refine ⟨⟨tr2.exitTime, si :: tr2.sleepLog,
          (checkCycle fs t).2 :: tr2.checksLog⟩, ?_⟩
        rw [pollLoop]
        simp [hflag, htr2]
      · have hflag2 : (checkCycle fs t).1 = false := by
          simpa using hflag
        exact ⟨⟨t, [si], [(checkCycle fs t).2]⟩, by
          rw [pollLoop]; simp [hflag2]⟩

/-! ## Lemmas about the collection pass and wait_for_all -/

/-- The collection pass propagates the first stored exception. -/
theorem collectResults_first_error (pre post : List (Future ε α))
    (f : Future ε α) (e : ε)
    (hpre : ∀ g ∈ pre, ∃ a, g.result = Except.ok a)
    (he : f.result = Except.error e) :
    collectResults (pre ++ f :: post) = Except.error e := by
  induction pre with
  | nil => simp [collectResults, he]
  | cons g rest ih =>
      obtain ⟨a, ha⟩ := hpre g (by simp)
      simp only [List.cons_append, collectResults, ha]
      exact ih fun g2 hg2 => hpre g2 (by simp [hg2])

/-- Unfolding of a successful `wait_for_all` run: the polling loop exited
with the given trace, and the outcome is that of the collection pass. -/
theorem wait_for_all_eq_some (fs : List (Future ε α)) (si fuel : Nat)
    (tr : LoopTrace) (res : Except ε Unit)
    (h : wait_for_all fs si fuel = some (tr, res)) :
    pollLoop fs si 0 fuel = some tr ∧ res = collectResults fs := by
  unfold wait_for_all at h
  cases hp : pollLoop fs si 0 fuel with
  | none => rw [hp] at h; exact absurd h (by simp)
  | some tr2 =>
      rw [hp] at h
      simp only [Option.some.injEq, Prod.mk.injEq] at h
      exact ⟨by rw [h.1], h.2.symm⟩

/-! ## Lemmas about the configuration builder -/

/-- Shape of any configuration `workflow_config` returns: the monitoring
field is the hub exactly when `monitor` is set, the strategy is `None`,
there are four executors, and every executor's `worker_init` is the
contents of the file `parsl.env`. -/
theorem workflow_config_shape (name : String) (addr fsys : String → String)
    (partition : List String) (nodes cores_per_node : List Nat)
    (walltime : List String) (interval : Nat) (monitor : Bool) (cfg : Config)
    (h : workflow_config name addr fsys partition nodes cores_per_node
        walltime interval monitor = some cfg) :
    cfg.monitoring = (if monitor then
        some (MonitoringHub.mk name (addr "ib0") 60001 true false interval)
      else none) ∧
    cfg.strategy = none ∧
    cfg.executors.length = 4 ∧
    cfg.executors.map (fun e => e.provider.worker_init) =
      [fsys "parsl.env", fsys "parsl.env", fsys "parsl.env",
        fsys "parsl.env"] := by
  unfold workflow_config at h
  cases hp : take4 partition with
  | none => rw [hp] at h; simp at h
  | some qp =>
      obtain ⟨p0, p1, p2, p3⟩ := qp
      rw [hp] at h
      cases hn : take4 nodes with
      | none => rw [hn] at h; simp at h
      | some qn =>
          obtain ⟨n0, n1, n2, n3⟩ := qn
          rw [hn] at h
          cases hc : take4 cores_per_node with
          | none => rw [hc] at h; simp at h
          | some qc =>
              obtain ⟨c0, c1, c2, c3⟩ := qc
              rw [hc] at h
              cases hw : take4 walltime with
              | none => rw [hw] at h; simp at h
              | some qw =>
                  obtain ⟨w0, w1, w2, w3⟩ := qw
                  rw [hw] at h
                  simp only [Option.bind_eq_bind, Option.some_bind,
                    pure, Option.some.injEq] at h
                  rw [← h]
                  exact ⟨rfl, rfl, rfl, rfl⟩

/-! ## Claim theorems -/

/-- Claim C1: for every list of task handles, `wait_for_all` returns only
after every handle's completion check (`done`) has reported true — at the
poll time of the final cycle every handle reports complete — and never
returns while some handle is still incomplete. -/
theorem claim_C1_returns_only_when_all_done (fs : List (Future ε α))
    (si fuel : Nat) (tr : LoopTrace) (res : Except ε Unit)
    (h : wait_for_all fs si fuel = some (tr, res)) :
    ∀ f ∈ fs, f.doneAt tr.exitTime = true :=
  pollLoop_exit_all_done fs si fuel 0 tr
    (wait_for_all_eq_some fs si fuel tr res h).1

/-- Witness for C1 on a run in which one handle completes only at poll
time 1: at the exit time both handles report complete. -/
theorem claim_C1_witness :
    futLate.doneAt (LoopTrace.mk 1 [10, 10] [1, 2]).exitTime = true ∧
    futNow.doneAt (LoopTrace.mk 1 [10, 10] [1, 2]).exitTime = true :=
  ⟨claim_C1_returns_only_when_all_done [futLate, futNow] 10 5
      (LoopTrace.mk 1 [10, 10] [1, 2]) (Except.ok ()) rfl futLate (by simp),
    claim_C1_returns_only_when_all_done [futLate, futNow] 10 5
      (LoopTrace.mk 1 [10, 10] [1, 2]) (Except.ok ()) rfl futNow (by simp)⟩

/-- Claim C2: if a handle's result accessor holds a stored exception and
all handles before it succeed, `wait_for_all` propagates exactly that
failure; the propagation happens only after the polling loop observed all
handles complete, and the polling loop itself never consults results — it
is determined by the completion histories alone. -/
theorem claim_C2_failure_propagated_after_poll (fs pre post :
    List (Future ε α)) (f : Future ε α) (e : ε) (si fuel : Nat)
    (tr : LoopTrace) (res : Except ε Unit)
    (h : wait_for_all fs si fuel = some (tr, res))
    (hsplit : fs = pre ++ f :: post)
    (hpre : ∀ g ∈ pre, ∃ a, g.result = Except.ok a)
    (he : f.result = Except.error e) :
    res = Except.error e ∧
    (∀ g ∈ fs, g.doneAt tr.exitTime = true) ∧
    ∀ gs : List (Future ε α), fs.map Future.doneAt = gs.map Future.doneAt →
      pollLoop gs si 0 fuel = some tr := by
  obtain ⟨hp, hres⟩ := wait_for_all_eq_some fs si fuel tr res h
  refine ⟨?_, pollLoop_exit_all_done fs si fuel 0 tr hp, ?_⟩
  · rw [hres, hsplit]
    exact collectResults_first_error pre post f e hpre he
  · intro gs hmap
    rw [← pollLoop_congr fs gs hmap si fuel 0]
    exact hp

/-- Witness for C2: a succeeding handle followed by a failing one. -/
theorem claim_C2_witness :
    (Except.error "boom" : Except String Unit) = Except.error "boom" ∧
    (∀ g ∈ [futNow, futFail],
      g.doneAt (LoopTrace.mk 0 [3] [2]).exitTime = true) ∧
    ∀ gs : List (Future String Nat),
      ([futNow, futFail] : List (Future String Nat)).map Future.doneAt =
        gs.map Future.doneAt →
      pollLoop gs 3 0 2 = some (LoopTrace.mk 0 [3] [2]) :=
  claim_C2_failure_propagated_after_poll [futNow, futFail] [futNow] []
    futFail "boom" 3 2 (LoopTrace.mk 0 [3] [2]) (Except.error "boom") rfl rfl
    (by intro g hg; simp only [List.mem_singleton] at hg
        exact ⟨0, by rw [hg]; rfl⟩) rfl

/-- Claim C3: for any four-element input lists, `workflow_config` builds
exactly four executors; entry `i` takes its partition from
`partition[i]`, its nodes-per-block from `nodes[i]`, its max workers from
`cores_per_node[i]`, and its walltime from `walltime[i]`. -/
theorem claim_C3_four_executors_positional (name : String)
    (addr fsys : String → String) (p0 p1 p2 p3 : String)
    (n0 n1 n2 n3 c0 c1 c2 c3 : Nat) (w0 w1 w2 w3 : String)
    (interval : Nat) (monitor : Bool) :
    ∃ cfg,
      workflow_config name addr fsys [p0, p1, p2, p3] [n0, n1, n2, n3]
        [c0, c1, c2, c3] [w0, w1, w2, w3] interval monitor = some cfg ∧
      cfg.executors.length = 4 ∧
      cfg.executors.map (fun e => e.provider.partition) = [p0, p1, p2, p3] ∧
      cfg.executors.map (fun e => e.provider.nodes_per_block) =
        [n0, n1, n2, n3] ∧
      cfg.executors.map (fun e => e.max_workers) = [c0, c1, c2, c3] ∧
      cfg.executors.map (fun e => e.provider.walltime) = [w0, w1, w2, w3] :=
  ⟨_, rfl, rfl, rfl, rfl, rfl, rfl⟩

/-- Claim C4: the returned configuration has a monitoring hub exactly when
the `monitor` flag is set, and an attached hub samples at the given
`interval`. -/
theorem claim_C4_monitoring_iff_flag (name : String)
    (addr fsys : String → String) (partition : List String)
    (nodes cores_per_node : List Nat) (walltime : List String)
    (interval : Nat) (monitor : Bool) (cfg : Config)
    (h : workflow_config name addr fsys partition nodes cores_per_node
        walltime interval monitor = some cfg) :
    (cfg.monitoring.isSome = true ↔ monitor = true) ∧
    ∀ hub, cfg.monitoring = some hub →
      hub.resource_monitoring_interval = interval := by
  obtain ⟨hmon, -, -, -⟩ :=
    workflow_config_shape name addr fsys partition nodes cores_per_node
      walltime interval monitor cfg h
  constructor
  · cases monitor <;> simp [hmon]
  · intro hub hh
    rw [hmon] at hh
    cases monitor
    · simp at hh
    · simp at hh
      subst hh
      rfl

/-- Witness for C4 on the sample inputs with monitoring enabled. -/
theorem claim_C4_witness :
    (sampleCfgMon.monitoring.isSome = true ↔ true = true) ∧
    ∀ hub, sampleCfgMon.monitoring = some hub →
      hub.resource_monitoring_interval = 30 :=
  claim_C4_monitoring_iff_flag "wf" sampleAddr sampleFsys samplePartition
    sampleNodes sampleCores sampleWall 30 true sampleCfgMon rfl

/-- Claim C5 fails as stated: the inner scan `break`s at the first
incomplete handle, so a polling cycle does not always check every handle.
On `[futLate, futNow]` the first cycle makes one `done()` call, not two. -/
theorem claim_C5_counterexample :
    wait_for_all [futLate, futNow] 10 5 =
      some (LoopTrace.mk 1 [10, 10] [1, 2], Except.ok ()) ∧
    ¬ ∀ j, j < (LoopTrace.mk 1 [10, 10] [1, 2]).checksLog.length →
        (LoopTrace.mk 1 [10, 10] [1, 2]).checksLog.get? j =
          some ([futLate, futNow] : List (Future String Nat)).length := by
  refine ⟨rfl, fun hall => ?_⟩
  have := hall 0 (by simp)
  simp at this

/-- Claim C5, amended: in every polling cycle the loop re-checks
completion flags in list order, stopping at the first incomplete handle
(so all handles are checked only in a cycle that finds every handle
complete), and it sleeps the full sleep interval each cycle regardless of
how many handles are already done. -/
theorem claim_C5_amended_scan_and_sleep (fs : List (Future ε α))
    (si fuel : Nat) (tr : LoopTrace) (res : Except ε Unit)
    (h : wait_for_all fs si fuel = some (tr, res)) :
    tr.sleepLog = List.replicate tr.checksLog.length si ∧
    ∀ j, j < tr.checksLog.length →
      tr.checksLog.get? j =
        some ((fs.takeWhile fun f => f.doneAt j).length +
          (if fs.all (fun f => f.doneAt j) then 0 else 1)) := by
  obtain ⟨hp, -⟩ := wait_for_all_eq_some fs si fuel tr res h
  refine ⟨pollLoop_sleepLog_eq fs si fuel 0 tr hp, fun j hj => ?_⟩
  have hg := pollLoop_checksLog_get fs si fuel 0 tr hp j hj
  rw [Nat.zero_add] at hg
  rw [hg, checkCycle_snd_eq]

/-- Witness for the amended C5 on a run with a late handle. -/
theorem claim_C5_witness :
    (LoopTrace.mk 1 [10, 10] [1, 2]).sleepLog =
      List.replicate (LoopTrace.mk 1 [10, 10] [1, 2]).checksLog.length 10 ∧
    ∀ j, j < (LoopTrace.mk 1 [10, 10] [1, 2]).checksLog.length →
      (LoopTrace.mk 1 [10, 10] [1, 2]).checksLog.get? j =
        some ((([futLate, futNow] : List (Future String Nat)).takeWhile
            (fun f => f.doneAt j)).length +
          (if ([futLate, futNow] : List (Future String Nat)).all
              (fun f => f.doneAt j) then 0 else 1)) :=
  claim_C5_amended_scan_and_sleep [futLate, futNow] 10 5
    (LoopTrace.mk 1 [10, 10] [1, 2]) (Except.ok ()) rfl

/-- Claim C6: `wait_for_all` has no cancellation or timeout.  For handles
whose completion flag is stable (once done, always done — the behaviour of
real futures), the loop terminates within some fuel exactly when from some
time on every handle reports complete; and if some handle never reports
complete the loop exits under no fuel at all. -/
theorem claim_C6_terminates_iff_all_eventually_done
    (fs : List (Future ε α)) (si : Nat)
    (hmono : ∀ f ∈ fs, ∀ s t, s ≤ t → f.doneAt s = true →
      f.doneAt t = true) :
    ((∃ fuel tr res, wait_for_all fs si fuel = some (tr, res)) ↔
      ∃ T, ∀ t, T ≤ t → ∀ f ∈ fs, f.doneAt t = true) ∧
    ((∃ f ∈ fs, ∀ t, f.doneAt t = false) →
      ∀ fuel, wait_for_all fs si fuel = none) := by
  constructor
  · constructor
    · rintro ⟨fuel, tr, res, h⟩
      obtain ⟨hp, -⟩ := wait_for_all_eq_some fs si fuel tr res h
      exact ⟨tr.exitTime, fun t ht f hf =>
        hmono f hf tr.exitTime t ht
          (pollLoop_exit_all_done fs si fuel 0 tr hp f hf)⟩
    · rintro ⟨T, hT⟩
      obtain ⟨tr, htr⟩ := pollLoop_terminates fs si T 0
        (fun f hf => hT (0 + T) (by omega) f hf)
      exact ⟨T + 1, tr, collectResults fs, by
        unfold wait_for_all; rw [htr]⟩
  · rintro ⟨f, hf, hnever⟩ fuel
    have hflag : ∀ t, (checkCycle fs t).1 = true := by
      intro t
      by_contra hcon
      have hall := (checkCycle_fst_eq_false_iff fs t).1 (by simpa using hcon)
      have hft := hall f hf
      rw [hnever t] at hft
      exact absurd hft (by simp)
    unfold wait_for_all
    rw [pollLoop_none_of_always_not_done fs si hflag fuel 0]

/-- Witness for C6: a never-completing handle keeps the loop from exiting;
an already-complete handle lets it exit. -/
theorem claim_C6_witness :
    wait_for_all [futNever] 5 3 = none ∧
    ∃ fuel tr res, wait_for_all [futNow] 5 fuel = some (tr, res) := by
  constructor
  · exact (claim_C6_terminates_iff_all_eventually_done [futNever] 5
      (by intro f hf s t hst hd
          simp only [List.mem_singleton] at hf
          rw [hf] at hd
          exact absurd hd (by simp [futNever]))).2
      ⟨futNever, by simp, fun t => rfl⟩ 3
  · exact (claim_C6_terminates_iff_all_eventually_done [futNow] 5
      (by intro f hf s t hst hd
          simp only [List.mem_singleton] at hf
          rw [hf]
          rfl)).1.2
      ⟨0, fun t ht f hf => by
        simp only [List.mem_singleton] at hf
        rw [hf]
        rfl⟩

/-- Claim C7: the textual form of `PhylipMissingData` is the input
directory, the literal `" -> "`, then the message. -/
theorem claim_C7_str_form (input_dir message : String) :
    (PhylipMissingData.init input_dir message).toStr =
      input_dir ++ " -> " ++ message := rfl

/-- Claim C8: every executor's worker startup script is, verbatim, the
contents the filesystem holds for the fixed path `parsl.env`. -/
theorem claim_C8_worker_init_from_parsl_env (name : String)
    (addr fsys : String → String) (partition : List String)
    (nodes cores_per_node : List Nat) (walltime : List String)
    (interval : Nat) (monitor : Bool) (cfg : Config)
    (h : workflow_config name addr fsys partition nodes cores_per_node
        walltime interval monitor = some cfg) :
    cfg.executors.map (fun e => e.provider.worker_init) =
      [fsys "parsl.env", fsys "parsl.env", fsys "parsl.env",
        fsys "parsl.env"] :=
  (workflow_config_shape name addr fsys partition nodes cores_per_node
    walltime interval monitor cfg h).2.2.2

/-- Witness for C8 on the sample inputs. -/
theorem claim_C8_witness :
    sampleCfg.executors.map (fun e => e.provider.worker_init) =
      [sampleFsys "parsl.env", sampleFsys "parsl.env",
        sampleFsys "parsl.env", sampleFsys "parsl.env"] :=
  claim_C8_worker_init_from_parsl_env "wf" sampleAddr sampleFsys
    samplePartition sampleNodes sampleCores sampleWall 30 false sampleCfg rfl

/-- Claim C9: every successful `wait_for_all` run sleeps at least one full
interval — the sleep log starts with `si` — even when every handle is
already complete and even on an empty handle list, because the sleep runs
in the same cycle that first observes all handles done. -/
theorem claim_C9_always_sleeps_once (fs : List (Future ε α))
    (si fuel : Nat) (tr : LoopTrace) (res : Except ε Unit)
    (h : wait_for_all fs si fuel = some (tr, res)) :
    ∃ rest, tr.sleepLog = si :: rest :=
  pollLoop_sleepLog_cons fs si fuel 0 tr
    (wait_for_all_eq_some fs si fuel tr res h).1

/-- Witness for C9 on the empty handle list. -/
theorem claim_C9_witness :
    ∃ rest, (LoopTrace.mk 0 [9] [0]).sleepLog = 9 :: rest :=
  claim_C9_always_sleeps_once ([] : List (Future String Nat)) 9 2
    (LoopTrace.mk 0 [9] [0]) (Except.ok ()) rfl

/-- Claim C10: constructing `PhylipMissingData` with only an input
directory leaves the default message and stores the given directory. -/
theorem claim_C10_default_message (input_dir : String) :
    (PhylipMissingData.initDefault input_dir).message =
      "Unable to find a tar file with the nexus data." ∧
    (PhylipMissingData.initDefault input_dir).input_dir = input_dir :=
  ⟨rfl, rfl⟩

end Biocomp
